import Mathlib

set_option maxRecDepth 10000

/-! Shallow embedding of the search-space layer of the repository
(`baybe/searchspace.py`): discrete subspaces (creation, candidate
filtering, measurement matching, transform), continuous subspaces
(bounds, full-factorial sampling) and the combined `SearchSpace`
(bounds concatenation, dict round-trip). Experimental values are
rationals or category labels; machine floats of the source are modelled
exactly by rationals since no claim depends on rounding. -/

/-- Experimental-representation cell value: a numeric value or a
categorical label. -/
inductive Val where
  | num : ℚ → Val
  | cat : String → Val
deriving DecidableEq, Repr

/-- Numeric view of a cell; numeric parameter columns only ever hold
`Val.num` values, so the junk value for labels is never reached in the
situations the source supports (pandas would raise a TypeError there). -/
def Val.toQ : Val → ℚ
  | .num q => q
  | .cat _ => 0

/-- Modelled from the spec: the `Parameter` collaborator contract of §6
(`name`, `is_numeric`, `is_in_range`, `transform_rep_exp2comp`, the
computational bound columns) together with the discrete value domain of
§3; the parameter classes themselves are not part of the sources. A
discrete parameter's `encode` maps one experimental value to the row of
its computational columns `compCols`. -/
structure DiscreteParameter where
  name : String
  values : List Val
  is_numeric : Bool
  compCols : List String
  encode : Val → List ℚ
  inRange : Val → Bool

/-- Modelled from the spec: the `Constraint` collaborator contract of §6
(`eval_during_creation`, a validity predicate `get_invalid`); `typeIdx`
is the position of the constraint's type in the canonical order
`_constraints_order` used as the sort key in `SubspaceDiscrete.create`. -/
structure Constraint where
  typeIdx : Nat
  eval_during_creation : Bool
  invalid : List Val → Bool

/-- Stable insertion of a constraint behind all entries with a key not
greater than its own; models the stability of Python `sorted`. -/
def insertByOrder (c : Constraint) : List Constraint → List Constraint
  | [] => [c]
  | d :: ds => if d.typeIdx ≤ c.typeIdx then d :: insertByOrder c ds else c :: d :: ds

/-- The constraint reordering `sorted(constraints, key=...)` of
`SubspaceDiscrete.create`. -/
def sortConstraints (cs : List Constraint) : List Constraint :=
  cs.foldl (fun acc c => insertByOrder c acc) []

/-- Cartesian product of value domains, first list outermost, matching
the row order of `pd.MultiIndex.from_product`. -/
def cartProd : List (List Val) → List (List Val)
  | [] => [[]]
  | vs :: rest => vs.flatMap (fun v => (cartProd rest).map (fun t => v :: t))

/-- Modelled from the spec: §4.1 step 2, "Enumerate the Cartesian product
of every parameter's discrete value domain into one row per combination";
the helper `parameter_cartesian_prod_to_df` itself is not in the sources.
With no parameters the frame is empty. -/
def parameter_cartesian_prod_to_df (params : List DiscreteParameter) : List (List Val) :=
  if params.isEmpty then [] else cartProd (params.map (·.values))

/-- A labelled frame row: (index label, row values). -/
abbrev LRow := Nat × List Val

/-- The collaborator call `constraint.get_invalid(exp_rep)`: labels of
the rows its invalidity predicate rejects (§6: `get_invalid(rows) ->
set of row indices`). -/
def Constraint.get_invalid (c : Constraint) (rows : List LRow) : List Nat :=
  (rows.filter (fun lr => c.invalid lr.2)).map Prod.fst

/-- The frame mutation `exp_rep.drop(index=inds, inplace=True)`. -/
def dropRows (rows : List LRow) (inds : List Nat) : List LRow :=
  rows.filter (fun lr => !(inds.contains lr.1))

/-- The creation loop of `SubspaceDiscrete.create`: each surviving
constraint in turn computes its invalid labels on the surviving rows and
those rows are dropped. -/
def applyConstraints (cs : List Constraint) (rows : List LRow) : List LRow :=
  cs.foldl (fun acc c => dropRows acc (c.get_invalid acc)) rows

/-- The creation-time constraint sequence: canonical sort followed by the
generator filter `c for c in constraints if c.eval_during_creation`. -/
def creationConstraints (cs : List Constraint) : List Constraint :=
  (sortConstraints cs).filter (·.eval_during_creation)

/-- A computational-representation frame: named columns, row-major
values. -/
structure CompDF where
  cols : List String
  rows : List (List ℚ)
deriving DecidableEq, Repr

/-- The body of `SubspaceDiscrete.transform` before the frozen-column
restriction, i.e. the transform as it runs inside
`__attrs_post_init__` where `self.comp_rep` is not yet set (the
`AttributeError` branch): empty frame on empty encoding or empty input,
otherwise the column-wise concatenation of every parameter's
`transform_rep_exp2comp` output (`pd.DataFrame()` when there are no
parameters). -/
def transformRaw (params : List DiscreteParameter) (emptyEnc : Bool)
    (data : List (List Val)) : CompDF :=
  if emptyEnc || data.length < 1 then { cols := [], rows := data.map (fun _ => []) }
  else if params.isEmpty then { cols := [], rows := [] }
  else
    { cols := params.flatMap (·.compCols),
      rows := data.map (fun r => (params.zip r).flatMap (fun pv => pv.1.encode pv.2)) }

/-- Values of column `j` of a computational frame. -/
def colVals (df : CompDF) (j : Nat) : List ℚ :=
  df.rows.map (fun r => r.getD j 0)

/-- Whether a column carries a single value across all rows. -/
def isConstantCol (xs : List ℚ) : Bool :=
  match xs with
  | [] => true
  | x :: rest => rest.all (fun y => y == x)

/-- Positions of the columns that survive constant-column pruning. -/
def keptIdxs (df : CompDF) : List Nat :=
  (List.range df.cols.length).filter (fun j => !isConstantCol (colVals df j))

/-- Modelled from the spec: §4.1 step 4 / §3, "drop columns whose value is
constant across all rows"; the helper `df_drop_single_value_columns`
lives outside the sources. -/
def df_drop_single_value_columns (df : CompDF) : CompDF :=
  { cols := (keptIdxs df).map (fun j => df.cols.getD j ""),
    rows := df.rows.map (fun r => (keptIdxs df).map (fun j => r.getD j 0)) }

/-- One metadata row: the three bookkeeping flags. -/
structure Flags where
  was_recommended : Bool
  was_measured : Bool
  dont_recommend : Bool
deriving DecidableEq, Repr

/-- Freshly initialised metadata row (all three flags `False`). -/
def Flags.fresh : Flags := ⟨false, false, false⟩

/-- The discrete subspace state. `exp_rep` rows are positionally
labelled (creation resets the index to `0..n-1`), so positions serve as
index labels throughout. -/
structure SubspaceDiscrete where
  parameters : List DiscreteParameter
  exp_rep : List (List Val)
  comp_rep : CompDF
  metadata : List Flags
  empty_encoding : Bool

/-- The attrs constructor plus `__attrs_post_init__`: derived fields
`metadata` (all-false flags, one per `exp_rep` row) and `comp_rep`
(raw transform of `exp_rep` with constant columns dropped) are computed
from the init fields. -/
def mkSubspaceDiscrete (params : List DiscreteParameter) (exp : List (List Val))
    (emptyEnc : Bool) : SubspaceDiscrete :=
  { parameters := params
    exp_rep := exp
    comp_rep := df_drop_single_value_columns (transformRaw params emptyEnc exp)
    metadata := exp.map (fun _ => Flags.fresh)
    empty_encoding := emptyEnc }

/-- `SubspaceDiscrete.create`: canonical constraint order, Cartesian
product, sequential dropping of invalid rows, index reset, then the
attrs constructor. -/
def SubspaceDiscrete.create (params : List DiscreteParameter) (cs : List Constraint)
    (emptyEnc : Bool) : SubspaceDiscrete :=
  let labeled := (parameter_cartesian_prod_to_df params).enum
  let filtered := applyConstraints (creationConstraints cs) labeled
  mkSubspaceDiscrete params (filtered.map Prod.snd) emptyEnc

/-- Sequential application of constraint invalidity predicates to plain
(unlabelled) rows, the reading of §4.1 step 3 of the spec. -/
def seqFilter (cs : List Constraint) (rows : List (List Val)) : List (List Val) :=
  cs.foldl (fun acc c => acc.filter (fun r => !c.invalid r)) rows

lemma filter_map_snd (p : List Val → Bool) (rows : List LRow) :
    (rows.filter (fun lr => p lr.2)).map Prod.snd = (rows.map Prod.snd).filter p := by
  induction rows with
  | nil => rfl
  | cons lr rest ih =>
    by_cases h : p lr.2 <;> simp [List.filter_cons, h, ih]

lemma dropRows_eq_filter (c : Constraint) (rows : List LRow)
    (hnd : (rows.map Prod.fst).Nodup) :
    dropRows rows (c.get_invalid rows) = rows.filter (fun lr => !c.invalid lr.2) := by
  unfold dropRows Constraint.get_invalid
  apply List.filter_congr
  intro lr hmem
  congr 1
  rw [Bool.eq_iff_iff]
  rw [show (((rows.filter (fun x => c.invalid x.2)).map Prod.fst).contains lr.1)
      = ((rows.filter (fun x => c.invalid x.2)).map Prod.fst).elem lr.1 from rfl,
    List.elem_iff]
  simp only [List.mem_map, List.mem_filter]
  constructor
  · rintro ⟨x, ⟨hx, hxinv⟩, hfst⟩
    have := List.inj_on_of_nodup_map hnd hx hmem hfst
    rw [this] at hxinv
    exact hxinv
  · intro h
    exact ⟨lr, ⟨hmem, h⟩, rfl⟩

lemma nodup_fst_filter (p : LRow → Bool) (rows : List LRow)
    (hnd : (rows.map Prod.fst).Nodup) :
    ((rows.filter p).map Prod.fst).Nodup := by
  have hsub : (rows.filter p).Sublist rows := List.filter_sublist rows
  exact (hsub.map Prod.fst).nodup hnd

lemma applyConstraints_map_snd (cs : List Constraint) (rows : List LRow)
    (hnd : (rows.map Prod.fst).Nodup) :
    (applyConstraints cs rows).map Prod.snd = seqFilter cs (rows.map Prod.snd) := by
  induction cs generalizing rows with
  | nil => rfl
  | cons c rest ih =>
    show (applyConstraints rest (dropRows rows (c.get_invalid rows))).map Prod.snd
      = seqFilter rest ((rows.map Prod.snd).filter (fun r => !c.invalid r))
    rw [dropRows_eq_filter c rows hnd,
      ih _ (nodup_fst_filter _ rows hnd),
      filter_map_snd (fun r => !c.invalid r) rows]

lemma seqFilter_eq_filter_all (cs : List Constraint) (rows : List (List Val)) :
    seqFilter cs rows = rows.filter (fun r => cs.all (fun c => !c.invalid r)) := by
  induction cs generalizing rows with
  | nil => simp [seqFilter]
  | cons c rest ih =>
    show seqFilter rest (rows.filter (fun r => !c.invalid r)) = _
    rw [ih, List.filter_filter]
    apply List.filter_congr
    intro r _
    simp [Bool.and_comm]

lemma applyConstraints_nil (cs : List Constraint) : applyConstraints cs [] = [] := by
  induction cs with
  | nil => rfl
  | cons c rest ih =>
    show applyConstraints rest (dropRows [] (c.get_invalid [])) = []
    simpa [dropRows] using ih

lemma transformRaw_rows_length (params : List DiscreteParameter) (e : Bool)
    (data : List (List Val)) (h : params.isEmpty = false ∨ data = []) :
    (transformRaw params e data).rows.length = data.length := by
  unfold transformRaw
  by_cases he : (e || decide (data.length < 1)) = true
  · rw [if_pos he]
    simp
  · rw [if_neg he]
    rcases h with h | h
    · simp [h]
    · subst h
      simp at he

lemma df_drop_rows_length (df : CompDF) :
    (df_drop_single_value_columns df).rows.length = df.rows.length := by
  simp [df_drop_single_value_columns]

/-- C1: `SubspaceDiscrete.create` builds `exp_rep` as exactly the rows of
the parameters' Cartesian product that survive sequential application of
every creation-time constraint's invalidity predicate in the canonical
constraint order (equivalently, the rows on which every creation-time
constraint's predicate is false), reindexed contiguously from zero
(positional representation); `comp_rep` and `metadata` have the same row
count as `exp_rep`, and every metadata row starts with all three flags
`False`. -/
theorem spec_C1_create_filters_product (params : List DiscreteParameter)
    (cs : List Constraint) (e : Bool) :
    (SubspaceDiscrete.create params cs e).exp_rep
        = seqFilter (creationConstraints cs) (parameter_cartesian_prod_to_df params)
      ∧ (SubspaceDiscrete.create params cs e).exp_rep
        = (parameter_cartesian_prod_to_df params).filter
            (fun r => (creationConstraints cs).all (fun c => !c.invalid r))
      ∧ (SubspaceDiscrete.create params cs e).comp_rep.rows.length
        = (SubspaceDiscrete.create params cs e).exp_rep.length
      ∧ (SubspaceDiscrete.create params cs e).metadata.length
        = (SubspaceDiscrete.create params cs e).exp_rep.length
      ∧ ∀ f ∈ (SubspaceDiscrete.create params cs e).metadata, f = Flags.fresh := by
  have hnd : (((parameter_cartesian_prod_to_df params).enum).map Prod.fst).Nodup := by
    rw [List.enum_map_fst]
    exact List.nodup_range _
  have hexp : (SubspaceDiscrete.create params cs e).exp_rep
      = seqFilter (creationConstraints cs) (parameter_cartesian_prod_to_df params) := by
    show (applyConstraints (creationConstraints cs)
        ((parameter_cartesian_prod_to_df params).enum)).map Prod.snd = _
    rw [applyConstraints_map_snd _ _ hnd, List.enum_map_snd]
  refine ⟨hexp, ?_, ?_, ?_, ?_⟩
  · rw [hexp, seqFilter_eq_filter_all]
  · show (df_drop_single_value_columns _).rows.length = _
    rw [df_drop_rows_length]
    apply transformRaw_rows_length
    by_cases hp : params.isEmpty
    · right
      have hbase : parameter_cartesian_prod_to_df params = [] := by
        simp [parameter_cartesian_prod_to_df, hp]
      show (applyConstraints (creationConstraints cs)
          ((parameter_cartesian_prod_to_df params).enum)).map Prod.snd = []
      rw [hbase]
      simp [applyConstraints_nil]
    · left
      simpa using hp
  · simp [SubspaceDiscrete.create, mkSubspaceDiscrete]
  · intro f hf
    obtain ⟨a, ha, hfa⟩ := List.mem_map.1 hf
    exact hfa.symm

/-- Pandas column selection `df[names]`: reorders/restricts the frame to
the named columns. Unreachable names would raise a KeyError in pandas; in
every use below the requested names come from the frame's own column set,
so the junk default is never selected. -/
def selectCols (df : CompDF) (names : List String) : CompDF :=
  { cols := names,
    rows := df.rows.map (fun r => names.map (fun n => r.getD (df.cols.indexOf n) 0)) }

/-- The post-construction `SubspaceDiscrete.transform`: empty frame on
empty encoding or zero-row input, otherwise the per-parameter transforms
restricted to the frozen `comp_rep` column set (the `try` branch that
succeeds once `comp_rep` is set). -/
def SubspaceDiscrete.transform (s : SubspaceDiscrete) (data : List (List Val)) : CompDF :=
  if s.empty_encoding || data.length < 1 then { cols := [], rows := data.map (fun _ => []) }
  else selectCols (transformRaw s.parameters s.empty_encoding data) s.comp_rep.cols

/-- Concrete `NumericalDiscreteParameter` collaborator: identity
encoding into a single column named after the parameter, in-range test by
domain membership. -/
def pNum (nm : String) (vs : List ℚ) : DiscreteParameter :=
  { name := nm
    values := vs.map Val.num
    is_numeric := true
    compCols := [nm]
    encode := fun v => [v.toQ]
    inRange := fun v => (vs.map Val.num).contains v }

/-- Concrete `CategoricalParameter` collaborator with one-hot encoding. -/
def pCat (nm : String) (vs : List String) : DiscreteParameter :=
  { name := nm
    values := vs.map Val.cat
    is_numeric := false
    compCols := vs.map (fun v => nm ++ "_" ++ v)
    encode := fun v => vs.map (fun w => if v == Val.cat w then (1 : ℚ) else 0)
    inRange := fun v => (vs.map Val.cat).contains v }

lemma drop_cols_subset (df : CompDF) :
    ∀ c ∈ (df_drop_single_value_columns df).cols, c ∈ df.cols := by
  intro c hc
  obtain ⟨j, hj, rfl⟩ := List.mem_map.1 hc
  have hjr : j ∈ List.range df.cols.length := List.mem_of_mem_filter hj
  have hjl : j < df.cols.length := List.mem_range.1 hjr
  rw [List.getD_eq_getElem df.cols "" hjl]
  exact List.getElem_mem hjl

/-- C2 counterexample: the claim as stated fails on zero-row input. For
the subspace over one two-valued numeric parameter, built without empty
encoding, the frozen column set is nonempty, yet `transform` of a
zero-row frame returns zero columns rather than the frozen set. -/
theorem spec_C2_counterexample :
    (SubspaceDiscrete.create [pNum "p" [1, 2]] [] false).empty_encoding = false
      ∧ (SubspaceDiscrete.create [pNum "p" [1, 2]] [] false).comp_rep.cols = ["p"]
      ∧ ((SubspaceDiscrete.create [pNum "p" [1, 2]] [] false).transform []).cols
          ≠ (SubspaceDiscrete.create [pNum "p" [1, 2]] [] false).comp_rep.cols := by
  refine ⟨rfl, by decide, by decide⟩

/-- C2 (amended): for every subspace built by the constructor, the
`comp_rep` column set is frozen at construction as a subset of the full
encoded column set (extra encoded columns are dropped, never added), and
every subsequent `transform` call on a NONEMPTY input reproduces exactly
that column set; on empty-encoding subspaces, or on zero-row input, the
result has zero columns. -/
theorem spec_C2_transform_frozen_columns (params : List DiscreteParameter)
    (exp : List (List Val)) (e : Bool) (data : List (List Val)) :
    ((e = true ∨ data = []) →
        ((mkSubspaceDiscrete params exp e).transform data).cols = [])
      ∧ (e = false → data ≠ [] →
        ((mkSubspaceDiscrete params exp e).transform data).cols
          = (mkSubspaceDiscrete params exp e).comp_rep.cols)
      ∧ ∀ c ∈ (mkSubspaceDiscrete params exp e).comp_rep.cols,
          c ∈ (transformRaw params e exp).cols := by
  refine ⟨?_, ?_, ?_⟩
  · intro h
    rcases h with h | h
    · show (if (mkSubspaceDiscrete params exp e).empty_encoding
          || decide (data.length < 1) then _ else _ : CompDF).cols = []
      have : (mkSubspaceDiscrete params exp e).empty_encoding = true := h
      rw [this]
      simp
    · subst h
      show (if (mkSubspaceDiscrete params exp e).empty_encoding
          || decide (([] : List (List Val)).length < 1) then _ else _ : CompDF).cols = []
      simp
  · intro he hd
    show (if (mkSubspaceDiscrete params exp e).empty_encoding
        || decide (data.length < 1) then _ else _ : CompDF).cols = _
    have h1 : (mkSubspaceDiscrete params exp e).empty_encoding = false := he
    have h2 : decide (data.length < 1) = false := by
      simp only [decide_eq_false_iff_not]
      intro hlt
      exact hd (List.eq_nil_of_length_eq_zero (by omega))
    rw [h1, h2]
    simp [selectCols]
  · exact drop_cols_subset _

/-- C2 amended-theorem witness at concrete inputs. -/
theorem spec_C2_witness :
    ((mkSubspaceDiscrete [pNum "q" [1, 2]] [[Val.num 1], [Val.num 2]] false).transform
        [[Val.num 1]]).cols
      = (mkSubspaceDiscrete [pNum "q" [1, 2]] [[Val.num 1], [Val.num 2]] false).comp_rep.cols
    ∧ ((mkSubspaceDiscrete [pNum "q" [1, 2]] [[Val.num 1], [Val.num 2]] true).transform
        [[Val.num 1]]).cols = [] :=
  ⟨(spec_C2_transform_frozen_columns [pNum "q" [1, 2]] [[Val.num 1], [Val.num 2]] false
      [[Val.num 1]]).2.1 rfl (by decide),
   (spec_C2_transform_frozen_columns [pNum "q" [1, 2]] [[Val.num 1], [Val.num 2]] true
      [[Val.num 1]]).1 (Or.inl rfl)⟩

/-- The drop mask of `get_candidates`: `dont_recommend`, or-ed with
`was_recommended` unless repeats are allowed, or-ed with `was_measured`
unless already-measured rows are allowed. -/
def maskToDrop (allowRep allowMeas : Bool) (f : Flags) : Bool :=
  (f.dont_recommend || (!allowRep && f.was_recommended)) || (!allowMeas && f.was_measured)

/-- The pandas selection `df.loc[~mask]`: rows whose mask entry is false,
keeping their index labels (here: positions, offset by `i`). -/
def selectByMask : List α → List Bool → Nat → List (Nat × α)
  | [], _, _ => []
  | _ :: _, [], _ => []
  | a :: as, false :: bs, i => (i, a) :: selectByMask as bs (i + 1)
  | _ :: as, true :: bs, i => selectByMask as bs (i + 1)

/-- `SubspaceDiscrete.get_candidates`: builds the drop mask from the
metadata flags and returns the unmasked rows of both representations. -/
def SubspaceDiscrete.get_candidates (s : SubspaceDiscrete) (allowRep allowMeas : Bool) :
    List (Nat × List Val) × List (Nat × List ℚ) :=
  let mask := s.metadata.map (maskToDrop allowRep allowMeas)
  (selectByMask s.exp_rep mask 0, selectByMask s.comp_rep.rows mask 0)

/-- Row-count agreement between the three frames of a discrete subspace;
holds for every subspace the constructor builds and is preserved by every
mutation in the source. -/
def SubspaceDiscrete.WF (s : SubspaceDiscrete) : Prop :=
  s.metadata.length = s.exp_rep.length ∧ s.comp_rep.rows.length = s.exp_rep.length

instance (s : SubspaceDiscrete) : Decidable s.WF := by
  unfold SubspaceDiscrete.WF
  infer_instance

lemma selectByMask_map_fst {α β : Type} (as : List α) (cs : List β) (bs : List Bool)
    (i : Nat) (hlen : as.length = cs.length) :
    (selectByMask as bs i).map Prod.fst = (selectByMask cs bs i).map Prod.fst := by
  induction as generalizing cs bs i with
  | nil =>
    cases cs with
    | nil => rfl
    | cons c cs => simp at hlen
  | cons a as ih =>
    cases cs with
    | nil => simp at hlen
    | cons c cs =>
      cases bs with
      | nil => rfl
      | cons b bs =>
        have hlen2 : as.length = cs.length := by simpa using hlen
        cases b with
        | false => simp [selectByMask, ih cs bs (i + 1) hlen2]
        | true => simp [selectByMask, ih cs bs (i + 1) hlen2]

lemma selectByMask_mem {α : Type} [DecidableEq α] (as : List α) (bs : List Bool)
    (i j : Nat) (a : α) :
    (j, a) ∈ selectByMask as bs i
      ↔ ∃ k, j = i + k ∧ as[k]? = some a ∧ bs[k]? = some false := by
  induction as generalizing bs i j with
  | nil =>
    simp [selectByMask]
  | cons x as ih =>
    cases bs with
    | nil =>
      simp [selectByMask]
    | cons b bs =>
      cases b with
      | false =>
        simp only [selectByMask, List.mem_cons, ih bs (i + 1) j]
        constructor
        · rintro (h | ⟨k, hk, hak, hbk⟩)
          · rw [Prod.ext_iff] at h
            refine ⟨0, by omega, ?_, ?_⟩
            · have h2 : a = x := h.2
              simp only [List.getElem?_cons_zero]
              exact congrArg some h2.symm
            · simp
          · exact ⟨k + 1, by omega, by simpa using hak, by simpa using hbk⟩
        · rintro ⟨k, hk, hak, hbk⟩
          cases k with
          | zero =>
            left
            simp at hak
            simp [hk, hak]
          | succ k =>
            right
            exact ⟨k, by omega, by simpa using hak, by simpa using hbk⟩
      | true =>
        simp only [selectByMask, ih bs (i + 1) j]
        constructor
        · rintro ⟨k, hk, hak, hbk⟩
          exact ⟨k + 1, by omega, by simpa using hak, by simpa using hbk⟩
        · rintro ⟨k, hk, hak, hbk⟩
          cases k with
          | zero => simp at hbk
          | succ k => exact ⟨k, by omega, by simpa using hak, by simpa using hbk⟩

lemma maskToDrop_eq_false_iff (aR aM : Bool) (f : Flags) :
    maskToDrop aR aM f = false
      ↔ f.dont_recommend = false ∧ (aR = true ∨ f.was_recommended = false)
          ∧ (aM = true ∨ f.was_measured = false) := by
  rcases f with ⟨wr, wm, dr⟩
  cases aR <;> cases aM <;> cases wr <;> cases wm <;> cases dr <;> simp [maskToDrop]

lemma mask_map_getElem (md : List Flags) (aR aM : Bool) (k : Nat) :
    (md.map (maskToDrop aR aM))[k]? = (md[k]?).map (maskToDrop aR aM) := by
  simp

/-- C3: `get_candidates` returns exactly the rows whose `dont_recommend`
flag is false, whose `was_recommended` flag is false unless repeats are
allowed, and whose `was_measured` flag is false unless already-measured
rows are allowed; the experimental and computational frames select the
same row positions in the same order. -/
theorem spec_C3_get_candidates (s : SubspaceDiscrete) (aR aM : Bool) (h : s.WF) :
    ((s.get_candidates aR aM).1.map Prod.fst = (s.get_candidates aR aM).2.map Prod.fst)
      ∧ (∀ j r, (j, r) ∈ (s.get_candidates aR aM).1
          ↔ s.exp_rep[j]? = some r ∧ ∃ f, s.metadata[j]? = some f
              ∧ f.dont_recommend = false ∧ (aR = true ∨ f.was_recommended = false)
              ∧ (aM = true ∨ f.was_measured = false))
      ∧ (∀ j cr, (j, cr) ∈ (s.get_candidates aR aM).2
          ↔ s.comp_rep.rows[j]? = some cr ∧ ∃ f, s.metadata[j]? = some f
              ∧ f.dont_recommend = false ∧ (aR = true ∨ f.was_recommended = false)
              ∧ (aM = true ∨ f.was_measured = false)) := by
  obtain ⟨hm, hc⟩ := h
  refine ⟨?_, ?_, ?_⟩
  · exact selectByMask_map_fst s.exp_rep s.comp_rep.rows
      (s.metadata.map (maskToDrop aR aM)) 0 (by omega)
  · intro j r
    rw [show (s.get_candidates aR aM).1
        = selectByMask s.exp_rep (s.metadata.map (maskToDrop aR aM)) 0 from rfl,
      selectByMask_mem]
    constructor
    · rintro ⟨k, hk, hak, hbk⟩
      rw [mask_map_getElem] at hbk
      rcases hf : s.metadata[k]? with _ | f
      · rw [hf] at hbk
        simp at hbk
      · rw [hf] at hbk
        simp at hbk
        have hj : j = k := by omega
        subst hj
        exact ⟨hak, f, hf, (maskToDrop_eq_false_iff aR aM f).1 hbk⟩
    · rintro ⟨hak, f, hf, hflags⟩
      refine ⟨j, by omega, hak, ?_⟩
      rw [mask_map_getElem, hf]
      simp [(maskToDrop_eq_false_iff aR aM f).2 hflags]
  · intro j cr
    rw [show (s.get_candidates aR aM).2
        = selectByMask s.comp_rep.rows (s.metadata.map (maskToDrop aR aM)) 0 from rfl,
      selectByMask_mem]
    constructor
    · rintro ⟨k, hk, hak, hbk⟩
      rw [mask_map_getElem] at hbk
      rcases hf : s.metadata[k]? with _ | f
      · rw [hf] at hbk
        simp at hbk
      · rw [hf] at hbk
        simp at hbk
        have hj : j = k := by omega
        subst hj
        exact ⟨hak, f, hf, (maskToDrop_eq_false_iff aR aM f).1 hbk⟩
    · rintro ⟨hak, f, hf, hflags⟩
      refine ⟨j, by omega, hak, ?_⟩
      rw [mask_map_getElem, hf]
      simp [(maskToDrop_eq_false_iff aR aM f).2 hflags]

/-- Concrete mixed-flag subspace for the C3 witness. -/
def c3sub : SubspaceDiscrete :=
  { parameters := [pNum "p" [1, 2, 3]]
    exp_rep := [[Val.num 1], [Val.num 2], [Val.num 3]]
    comp_rep := { cols := ["p"], rows := [[1], [2], [3]] }
    metadata := [⟨false, false, false⟩, ⟨true, false, false⟩, ⟨false, true, false⟩]
    empty_encoding := false }

/-- C3 witness at a concrete subspace with mixed flags. -/
theorem spec_C3_witness :
    (c3sub.get_candidates false false).1.map Prod.fst
      = (c3sub.get_candidates false false).2.map Prod.fst :=
  (spec_C3_get_candidates c3sub false false (by decide)).1

/-- A measurement frame handed to `mark_as_measured`: named columns and
rows carrying their pandas index label (`row.name` in the source's error
message). -/
structure MeasDF where
  cols : List String
  rows : List (Nat × List Val)

/-- The cell access `row[name]` on a measurement row. The junk default is
only reachable when the column is absent, which the source's
missing-column validation rules out before any access. -/
def rowGet (cols : List String) (vals : List Val) (nm : String) : Val :=
  vals.getD (cols.indexOf nm) (Val.num 0)

/-- The two `ValueError` exits of
`_match_measurement_with_searchspace_indices`: a parameter column missing
from the measurement frame, or an invalid value (naming the offending row
label and parameter). -/
inductive MatchErr where
  | missingColumns : MatchErr
  | invalidValue : Nat → String → MatchErr
deriving DecidableEq, Repr

/-- The per-row validity loop of the source: numeric parameters are
checked with `is_in_range` only when the tolerance flag is set,
non-numeric parameters always; the first failing parameter raises,
naming the row label and the parameter. -/
def checkRow (tol : Bool) (cols : List String) (lbl : Nat) (vals : List Val) :
    List DiscreteParameter → Except MatchErr Unit
  | [] => .ok ()
  | p :: rest =>
    if (if p.is_numeric then tol else true) && !(p.inRange (rowGet cols vals p.name))
    then .error (.invalidValue lbl p.name)
    else checkRow tol cols lbl vals rest

/-- Absolute value on rationals, written to evaluate in the kernel. -/
def qabs (q : ℚ) : ℚ := if q < 0 then -q else q

/-- Minimum of two rationals, written to evaluate in the kernel. -/
def qmin (a b : ℚ) : ℚ := if a ≤ b then a else b

/-- Smallest element of a rational series (`Series.min`); the junk value
for an empty series is never consulted by the statements below. -/
def listMin (xs : List ℚ) : ℚ := xs.foldl qmin (xs.headD 0)

/-- The categorical exact-match mask
`exp_rep[cat_cols].eq(row[cat_cols]).all(axis=1)`: non-numeric parameters
must match exactly, numeric ones are skipped here. -/
def catMask (params : List DiscreteParameter) (cols : List String) (vals : List Val)
    (rows : List (List Val)) : List Bool :=
  rows.map (fun r => params.enum.all (fun jp =>
    jp.2.is_numeric || (r.getD jp.1 (Val.num 0) == rowGet cols vals jp.2.name)))

/-- The numeric parameters with their column positions; in the source
these are the parameters with `is_numeric and is_discrete`, and every
parameter of a discrete subspace is discrete. -/
def numParams (params : List DiscreteParameter) : List (Nat × DiscreteParameter) :=
  params.enum.filter (fun jp => jp.2.is_numeric)

/-- The absolute-deviation series
`(exp_rep[param] - row[param]).abs()` over ALL search-space rows. -/
def absDiffs (j : Nat) (target : ℚ) (rows : List (List Val)) : List ℚ :=
  rows.map (fun r => qabs ((r.getD j (Val.num 0)).toQ - target))

/-- The numeric refinement loop `match &= abs_diff == abs_diff.min()`:
note the minimum is taken over the WHOLE series, i.e. over all
search-space rows, not only over the rows still matching. -/
def numFold (cols : List String) (vals : List Val) (rows : List (List Val)) :
    List (Nat × DiscreteParameter) → List Bool → List Bool
  | [], mask => mask
  | jp :: rest, mask =>
    numFold cols vals rows rest
      (List.zipWith
        (fun b d => b
          && (d == listMin (absDiffs jp.1 (rowGet cols vals jp.2.name).toQ rows)))
        mask (absDiffs jp.1 (rowGet cols vals jp.2.name).toQ rows))

/-- The full match mask for one measurement row. -/
def matchMask (params : List DiscreteParameter) (cols : List String) (vals : List Val)
    (rows : List (List Val)) : List Bool :=
  numFold cols vals rows (numParams params) (catMask params cols vals rows)

/-- The index extraction `exp_rep.index[match].to_list()` (labels are
positions after creation's index reset). -/
def foundLabels (mask : List Bool) : List Nat :=
  mask.enum.filterMap (fun ib => if ib.2 then some ib.1 else none)

/-- The zero/multi/single match bookkeeping: zero matches with numeric
parameters present records nothing (warning only), more than one match
records only the positionally first, otherwise the found list itself (of
length at most one) is appended. -/
def recordMatches (found : List Nat) (hasNum : Bool) : List Nat :=
  if found.length == 0 && hasNum then []
  else if 1 < found.length then [found.headD 0]
  else found

/-- Matching of one measurement row against the search space. -/
def matchRow (s : SubspaceDiscrete) (cols : List String) (vals : List Val) : List Nat :=
  recordMatches (foundLabels (matchMask s.parameters cols vals s.exp_rep))
    (s.parameters.any (·.is_numeric))

/-- The row iteration of
`_match_measurement_with_searchspace_indices`: each row is validity
checked then matched; a raised error aborts the whole call. -/
def matchRows (s : SubspaceDiscrete) (tol : Bool) (cols : List String) :
    List (Nat × List Val) → Except MatchErr (List Nat)
  | [] => .ok []
  | lv :: rest =>
    match checkRow tol cols lv.1 lv.2 s.parameters with
    | .error e => .error e
    | .ok _ =>
      match matchRows s tol cols rest with
      | .error e => .error e
      | .ok tailInds => .ok (matchRow s cols lv.2 ++ tailInds)

/-- `_match_measurement_with_searchspace_indices`: the up-front
missing-column validation (`exp_rep` columns are the parameter names)
followed by the row loop. -/
def SubspaceDiscrete.matchIndices (s : SubspaceDiscrete) (df : MeasDF) (tol : Bool) :
    Except MatchErr (List Nat) :=
  if !(s.parameters.all (fun p => df.cols.contains p.name)) then .error .missingColumns
  else matchRows s tol df.cols df.rows

/-- The metadata write `metadata.loc[inds_matched, "was_measured"] = True`. -/
def setMeasured (md : List Flags) (inds : List Nat) : List Flags :=
  md.enum.map (fun kf => if inds.contains kf.1
    then { kf.2 with was_measured := true } else kf.2)

/-- `SubspaceDiscrete.mark_as_measured`: matching of every input row
completes first; only then is the single metadata write applied. -/
def SubspaceDiscrete.mark_as_measured (s : SubspaceDiscrete) (df : MeasDF) (tol : Bool) :
    Except MatchErr SubspaceDiscrete :=
  (s.matchIndices df tol).map
    (fun inds => { s with metadata := setMeasured s.metadata inds })

lemma checkRow_error_sound (tol : Bool) (cols : List String) (lbl : Nat) (vals : List Val)
    (ps : List DiscreteParameter) (l : Nat) (q : String)
    (h : checkRow tol cols lbl vals ps = .error (.invalidValue l q)) :
    l = lbl ∧ ∃ p ∈ ps, p.name = q ∧ p.inRange (rowGet cols vals p.name) = false
      ∧ (p.is_numeric = true → tol = true) := by
  induction ps with
  | nil => simp [checkRow] at h
  | cons p rest ih =>
    unfold checkRow at h
    by_cases hc : ((if p.is_numeric then tol else true)
        && !(p.inRange (rowGet cols vals p.name))) = true
    · rw [if_pos hc] at h
      obtain ⟨happ, hrange⟩ := Bool.and_eq_true_iff.1 hc
      injection h with h2
      injection h2 with h1 h3
      refine ⟨h1.symm, p, List.mem_cons_self .., h3, by simpa using hrange, ?_⟩
      intro hn
      rw [hn] at happ
      simpa using happ
    · rw [if_neg hc] at h
      obtain ⟨h1, p2, hp2, hrest⟩ := ih h
      exact ⟨h1, p2, List.mem_cons_of_mem _ hp2, hrest⟩

lemma checkRow_error_complete (tol : Bool) (cols : List String) (lbl : Nat)
    (vals : List Val) (ps : List DiscreteParameter)
    (h : ∃ p ∈ ps, (if p.is_numeric then tol else true) = true
      ∧ p.inRange (rowGet cols vals p.name) = false) :
    ∃ q, checkRow tol cols lbl vals ps = .error (.invalidValue lbl q) := by
  induction ps with
  | nil => simp at h
  | cons p rest ih =>
    unfold checkRow
    by_cases hc : ((if p.is_numeric then tol else true)
        && !(p.inRange (rowGet cols vals p.name))) = true
    · rw [if_pos hc]
      exact ⟨p.name, rfl⟩
    · rw [if_neg hc]
      apply ih
      obtain ⟨p2, hp2, happ, hrange⟩ := h
      rcases List.mem_cons.1 hp2 with rfl | hp2
      · exact absurd (by rw [happ, hrange]; rfl) hc
      · exact ⟨p2, hp2, happ, hrange⟩

lemma checkRow_ok_of_valid (tol : Bool) (cols : List String) (lbl : Nat)
    (vals : List Val) (ps : List DiscreteParameter)
    (h : ∀ p ∈ ps, (if p.is_numeric then tol else true) = true →
      p.inRange (rowGet cols vals p.name) = true) :
    checkRow tol cols lbl vals ps = .ok () := by
  induction ps with
  | nil => rfl
  | cons p rest ih =>
    unfold checkRow
    have hc : ((if p.is_numeric then tol else true)
        && !(p.inRange (rowGet cols vals p.name))) = false := by
      by_cases happ : (if p.is_numeric then tol else true) = true
      · rw [happ, h p (List.mem_cons_self ..) happ]
        rfl
      · rw [Bool.eq_false_iff.2 happ]
        rfl
    rw [if_neg (fun hcond => Bool.false_ne_true (hc ▸ hcond))]
    exact ih (fun p2 hp2 => h p2 (List.mem_cons_of_mem _ hp2))

lemma checkRow_error_shape (tol : Bool) (cols : List String) (lbl : Nat) (vals : List Val)
    (ps : List DiscreteParameter) (e : MatchErr)
    (h : checkRow tol cols lbl vals ps = .error e) :
    ∃ q, e = .invalidValue lbl q := by
  induction ps with
  | nil => simp [checkRow] at h
  | cons p rest ih =>
    unfold checkRow at h
    by_cases hc : ((if p.is_numeric then tol else true)
        && !(p.inRange (rowGet cols vals p.name))) = true
    · rw [if_pos hc] at h
      injection h with h2
      exact ⟨p.name, h2.symm⟩
    · rw [if_neg hc] at h
      exact ih h

lemma matchRows_error_sound (s : SubspaceDiscrete) (tol : Bool) (cols : List String)
    (rows : List (Nat × List Val)) (l : Nat) (q : String)
    (h : matchRows s tol cols rows = .error (.invalidValue l q)) :
    ∃ vals, (l, vals) ∈ rows ∧ ∃ p ∈ s.parameters, p.name = q
      ∧ p.inRange (rowGet cols vals p.name) = false
      ∧ (p.is_numeric = true → tol = true) := by
  induction rows with
  | nil => simp [matchRows] at h
  | cons lv rest ih =>
    unfold matchRows at h
    rcases hcr : checkRow tol cols lv.1 lv.2 s.parameters with e | u
    · rw [hcr] at h
      have h2 : (Except.error e : Except MatchErr (List Nat))
          = .error (.invalidValue l q) := h
      injection h2 with h3
      subst h3
      obtain ⟨h1, p, hp, hname, hrange, hnum⟩ :=
        checkRow_error_sound tol cols lv.1 lv.2 s.parameters l q hcr
      subst h1
      exact ⟨lv.2, List.mem_cons_self .., p, hp, hname, hrange, hnum⟩
    · rw [hcr] at h
      rcases hmr : matchRows s tol cols rest with e2 | tail
      · rw [hmr] at h
        have h2 : (Except.error e2 : Except MatchErr (List Nat))
            = .error (.invalidValue l q) := h
        injection h2 with h3
        subst h3
        obtain ⟨vals, hv, hrest2⟩ := ih hmr
        exact ⟨vals, List.mem_cons_of_mem _ hv, hrest2⟩
      · rw [hmr] at h
        have h2 : (Except.ok (matchRow s cols lv.2 ++ tail) : Except MatchErr (List Nat))
            = .error (.invalidValue l q) := h
        cases h2

lemma matchRows_error_exists (s : SubspaceDiscrete) (tol : Bool) (cols : List String)
    (rows : List (Nat × List Val))
    (h : ∃ lv ∈ rows, ∃ p ∈ s.parameters,
      (if p.is_numeric then tol else true) = true
      ∧ p.inRange (rowGet cols lv.2 p.name) = false) :
    ∃ l q, matchRows s tol cols rows = .error (.invalidValue l q) := by
  induction rows with
  | nil => simp at h
  | cons lv rest ih =>
    rcases hcr : checkRow tol cols lv.1 lv.2 s.parameters with e | u
    · obtain ⟨q2, hq2⟩ := checkRow_error_shape tol cols lv.1 lv.2 s.parameters e hcr
      subst hq2
      refine ⟨lv.1, q2, ?_⟩
      unfold matchRows
      rw [hcr]
    · obtain ⟨lv2, hlv2, p, hp, happ, hrange⟩ := h
      rcases List.mem_cons.1 hlv2 with rfl | hlv2
      · obtain ⟨q2, hq2⟩ := checkRow_error_complete tol cols lv2.1 lv2.2 s.parameters
          ⟨p, hp, happ, hrange⟩
        rw [hq2] at hcr
        cases hcr
      · obtain ⟨l, q2, hlq⟩ := ih ⟨lv2, hlv2, p, hp, happ, hrange⟩
        refine ⟨l, q2, ?_⟩
        unfold matchRows
        rw [hcr, hlq]

lemma matchRows_ok_exists (s : SubspaceDiscrete) (tol : Bool) (cols : List String)
    (rows : List (Nat × List Val))
    (h : ∀ lv ∈ rows, checkRow tol cols lv.1 lv.2 s.parameters = .ok ()) :
    ∃ L, matchRows s tol cols rows = .ok L := by
  induction rows with
  | nil => exact ⟨[], rfl⟩
  | cons lv rest ih =>
    obtain ⟨L, hL⟩ := ih (fun lv2 h2 => h lv2 (List.mem_cons_of_mem _ h2))
    refine ⟨matchRow s cols lv.2 ++ L, ?_⟩
    unfold matchRows
    rw [h lv (List.mem_cons_self ..), hL]

/-- C4: measurement validation. A space parameter without a column in the
measurement frame yields the missing-column validation error; every
invalid-value error names an input row and a parameter whose applicable
domain check fails, where the domain check applies to non-numeric
parameters regardless of the tolerance flag and to numeric parameters
only when it is set; any applicable failure forces such an error; and
with the flag unset, rows whose non-numeric values are all in range never
raise, out-of-range numeric values proceeding to nearest-match logic. -/
theorem spec_C4_measurement_validation (s : SubspaceDiscrete) (df : MeasDF) (tol : Bool) :
    ((∃ p ∈ s.parameters, df.cols.contains p.name = false) →
        s.matchIndices df tol = .error .missingColumns)
      ∧ (∀ l q, s.matchIndices df tol = .error (.invalidValue l q) →
          ∃ vals, (l, vals) ∈ df.rows ∧ ∃ p ∈ s.parameters, p.name = q
            ∧ p.inRange (rowGet df.cols vals p.name) = false
            ∧ (p.is_numeric = true → tol = true))
      ∧ ((∀ p ∈ s.parameters, df.cols.contains p.name = true) →
          (∃ lv ∈ df.rows, ∃ p ∈ s.parameters,
              (if p.is_numeric then tol else true) = true
              ∧ p.inRange (rowGet df.cols lv.2 p.name) = false) →
          ∃ l q, s.matchIndices df tol = .error (.invalidValue l q))
      ∧ (tol = false →
          (∀ p ∈ s.parameters, df.cols.contains p.name = true) →
          (∀ lv ∈ df.rows, ∀ p ∈ s.parameters, p.is_numeric = false →
            p.inRange (rowGet df.cols lv.2 p.name) = true) →
          ∃ L, s.matchIndices df tol = .ok L) := by
  refine ⟨?_, ?_, ?_, ?_⟩
  · rintro ⟨p, hp, hcol⟩
    have hall : s.parameters.all (fun p => df.cols.contains p.name) = false := by
      rw [List.all_eq_false]
      exact ⟨p, hp, by simpa using hcol⟩
    unfold SubspaceDiscrete.matchIndices
    rw [hall]
    rfl
  · intro l q h
    unfold SubspaceDiscrete.matchIndices at h
    rcases hall : s.parameters.all (fun p => df.cols.contains p.name) with _ | _
    · rw [hall] at h
      have h2 : (Except.error MatchErr.missingColumns : Except MatchErr (List Nat))
          = .error (.invalidValue l q) := h
      injection h2 with h3
      cases h3
    · rw [hall] at h
      exact matchRows_error_sound s tol df.cols df.rows l q h
  · intro hcols hex
    have hall : s.parameters.all (fun p => df.cols.contains p.name) = true :=
      List.all_eq_true.2 (fun p hp => hcols p hp)
    obtain ⟨l, q, hlq⟩ := matchRows_error_exists s tol df.cols df.rows hex
    refine ⟨l, q, ?_⟩
    unfold SubspaceDiscrete.matchIndices
    rw [hall, hlq]
    rfl
  · intro htol hcols hvalid
    have hall : s.parameters.all (fun p => df.cols.contains p.name) = true :=
      List.all_eq_true.2 (fun p hp => hcols p hp)
    have hok : ∀ lv ∈ df.rows, checkRow tol df.cols lv.1 lv.2 s.parameters = .ok () := by
      intro lv hlv
      apply checkRow_ok_of_valid
      intro p hp happ
      rcases hn : p.is_numeric with _ | _
      · exact hvalid lv hlv p hp hn
      · simp [hn, htol] at happ
    obtain ⟨L, hL⟩ := matchRows_ok_exists s tol df.cols df.rows hok
    refine ⟨L, ?_⟩
    unfold SubspaceDiscrete.matchIndices
    rw [hall, hL]
    rfl

instance {ε α : Type} [DecidableEq ε] [DecidableEq α] : DecidableEq (Except ε α)
  | .error a, .error b =>
    if h : a = b then .isTrue (congrArg Except.error h)
    else .isFalse (fun hh => h (Except.error.inj hh))
  | .error _, .ok _ => .isFalse Except.noConfusion
  | .ok _, .error _ => .isFalse Except.noConfusion
  | .ok a, .ok b =>
    if h : a = b then .isTrue (congrArg Except.ok h)
    else .isFalse (fun hh => h (Except.ok.inj hh))

/-- Concrete subspace for the C4 witness. -/
def c4sub : SubspaceDiscrete := SubspaceDiscrete.create [pCat "c" ["a", "b"]] [] false

/-- Measurement frame missing the parameter column. -/
def c4dfMissing : MeasDF := ⟨["x"], []⟩

/-- Measurement frame with an out-of-domain categorical value. -/
def c4dfBad : MeasDF := ⟨["c"], [(5, [Val.cat "z"])]⟩

/-- Valid measurement frame. -/
def c4dfGood : MeasDF := ⟨["c"], [(0, [Val.cat "a"])]⟩

/-- C4 witness at concrete inputs: missing column errors, an out-of-range
categorical value errors naming row and parameter, and a valid frame
passes. -/
theorem spec_C4_witness :
    c4sub.matchIndices c4dfMissing false = .error .missingColumns
      ∧ (∃ vals, (5, vals) ∈ c4dfBad.rows ∧ ∃ p ∈ c4sub.parameters, p.name = "c"
          ∧ p.inRange (rowGet c4dfBad.cols vals p.name) = false
          ∧ (p.is_numeric = true → false = true))
      ∧ (∃ l q, c4sub.matchIndices c4dfBad false = .error (.invalidValue l q))
      ∧ (∃ L, c4sub.matchIndices c4dfGood false = .ok L) :=
  ⟨(spec_C4_measurement_validation c4sub c4dfMissing false).1 (by decide),
   (spec_C4_measurement_validation c4sub c4dfBad false).2.1 5 "c" (by decide),
   (spec_C4_measurement_validation c4sub c4dfBad false).2.2.1 (by decide) (by decide),
   (spec_C4_measurement_validation c4sub c4dfGood false).2.2.2 rfl (by decide) (by decide)⟩

/-- Candidate predicate the source actually implements for one
measurement row: exact equality on every non-numeric parameter and, per
numeric parameter, an absolute deviation equal to the minimum over ALL
search-space rows (the minimum of the whole deviation series, not of the
remaining candidates). -/
def isCandidate (params : List DiscreteParameter) (cols : List String) (vals : List Val)
    (allRows : List (List Val)) (r : List Val) : Bool :=
  (params.enum.all (fun jp =>
      jp.2.is_numeric || (r.getD jp.1 (Val.num 0) == rowGet cols vals jp.2.name)))
    && ((numParams params).all (fun jp =>
      qabs ((r.getD jp.1 (Val.num 0)).toQ - (rowGet cols vals jp.2.name).toQ)
        == listMin (absDiffs jp.1 (rowGet cols vals jp.2.name).toQ allRows)))

/-- Labels of the search-space rows satisfying `isCandidate`. -/
def candidateLabels (s : SubspaceDiscrete) (cols : List String) (vals : List Val) :
    List Nat :=
  s.exp_rep.enum.filterMap (fun ir =>
    if isCandidate s.parameters cols vals s.exp_rep ir.2 then some ir.1 else none)

/-- Stated from the claim wording (spec §4.1) for comparison with the
source: one numeric refinement step keeping, among the REMAINING
candidates only, the rows attaining the minimum deviation. -/
def claimNumStep (j : Nat) (target : ℚ) (cand : List (Nat × List Val)) :
    List (Nat × List Val) :=
  cand.filter (fun ir => qabs ((ir.2.getD j (Val.num 0)).toQ - target)
    == listMin (cand.map (fun ir2 => qabs ((ir2.2.getD j (Val.num 0)).toQ - target))))

/-- Stated from the claim wording for comparison with the source: the
candidate set obtained by exact categorical matching followed by
per-dimension minimum-deviation filtering among remaining candidates. -/
def claimCandidates (s : SubspaceDiscrete) (cols : List String) (vals : List Val) :
    List Nat :=
  (((numParams s.parameters).foldl
      (fun cand jp => claimNumStep jp.1 (rowGet cols vals jp.2.name).toQ cand)
      (s.exp_rep.enum.filter (fun ir => s.parameters.enum.all (fun jp =>
        jp.2.is_numeric
          || (ir.2.getD jp.1 (Val.num 0) == rowGet cols vals jp.2.name))))).map Prod.fst)

/-- Concrete subspace for the C5 counterexample: categorical parameter
`c` over `a, b`, numeric parameter `n` over `0, 1`, with a creation-time
constraint removing the row `(a, 0)`. -/
def c5sub : SubspaceDiscrete :=
  SubspaceDiscrete.create [pCat "c" ["a", "b"], pNum "n" [0, 1]]
    [⟨0, true, fun r => r == [Val.cat "a", Val.num 0]⟩] false

/-- Measurement matching the removed row exactly. -/
def c5meas : MeasDF := ⟨["c", "n"], [(0, [Val.cat "a", Val.num 0])]⟩

unseal Rat.add Rat.sub in
/-- C5 counterexample. The surviving rows are `(a,1), (b,0), (b,1)`. For
the measurement `(a, 0)` the claim's rule (minimum deviation among
remaining candidates) selects row 0, i.e. `(a,1)`, so the claim demands
`was_measured = [True, False, False]` afterwards; the source takes the
minimum over ALL rows (0, attained by `(b,0)` only), finds no candidate,
records nothing, and leaves every flag `False`. -/
theorem spec_C5_counterexample :
    claimCandidates c5sub ["c", "n"] [Val.cat "a", Val.num 0] = [0]
      ∧ c5sub.matchIndices c5meas false = .ok []
      ∧ (c5sub.mark_as_measured c5meas false).map
          (fun t => t.metadata.map (fun f => f.was_measured))
        = .ok [false, false, false]
      ∧ (c5sub.mark_as_measured c5meas false).map
          (fun t => t.metadata.map (fun f => f.was_measured))
        ≠ .ok [true, false, false] := by
  refine ⟨by decide, by decide, by decide, by decide⟩

lemma zipWith_map_same {α β γ δ : Type} (g : β → γ → δ) (f1 : α → β) (f2 : α → γ)
    (l : List α) :
    List.zipWith g (l.map f1) (l.map f2) = l.map (fun x => g (f1 x) (f2 x)) := by
  induction l with
  | nil => rfl
  | cons x rest ih => simp [ih]

lemma numFold_map (cols : List String) (vals : List Val) (rows : List (List Val))
    (nps : List (Nat × DiscreteParameter)) (f : List Val → Bool) :
    numFold cols vals rows nps (rows.map f)
      = rows.map (fun r => f r && nps.all (fun jp =>
          qabs ((r.getD jp.1 (Val.num 0)).toQ - (rowGet cols vals jp.2.name).toQ)
            == listMin (absDiffs jp.1 (rowGet cols vals jp.2.name).toQ rows))) := by
  induction nps generalizing f with
  | nil => simp [numFold]
  | cons jp rest ih =>
    show numFold cols vals rows rest
        (List.zipWith _ (rows.map f) (absDiffs jp.1 (rowGet cols vals jp.2.name).toQ rows))
      = _
    rw [show absDiffs jp.1 (rowGet cols vals jp.2.name).toQ rows
        = rows.map (fun r =>
            qabs ((r.getD jp.1 (Val.num 0)).toQ - (rowGet cols vals jp.2.name).toQ))
      from rfl]
    rw [zipWith_map_same]
    rw [ih]
    simp only [List.all_cons, Bool.and_assoc]
    rfl

lemma matchMask_eq (params : List DiscreteParameter) (cols : List String)
    (vals : List Val) (rows : List (List Val)) :
    matchMask params cols vals rows = rows.map (isCandidate params cols vals rows) := by
  unfold matchMask catMask
  rw [numFold_map]
  rfl

lemma foundLabels_map (rows : List (List Val)) (p : List Val → Bool) :
    foundLabels (rows.map p)
      = rows.enum.filterMap (fun ir => if p ir.2 then some ir.1 else none) := by
  unfold foundLabels
  rw [List.enum_map, List.filterMap_map]
  rfl

lemma recordMatches_eq_take (found : List Nat) (hasNum : Bool) :
    recordMatches found hasNum = found.take 1 := by
  rcases found with _ | ⟨x, _ | ⟨y, rest⟩⟩
  · cases hasNum <;> rfl
  · cases hasNum <;> rfl
  · cases hasNum <;> simp [recordMatches]

lemma matchRow_eq (s : SubspaceDiscrete) (cols : List String) (vals : List Val) :
    matchRow s cols vals = (candidateLabels s cols vals).take 1 := by
  unfold matchRow candidateLabels
  rw [matchMask_eq, foundLabels_map, recordMatches_eq_take]

lemma matchRows_ok_eq (s : SubspaceDiscrete) (tol : Bool) (cols : List String)
    (rows : List (Nat × List Val)) (L : List Nat)
    (h : matchRows s tol cols rows = .ok L) :
    L = rows.flatMap (fun lv => (candidateLabels s cols lv.2).take 1) := by
  induction rows generalizing L with
  | nil =>
    have h2 : (Except.ok [] : Except MatchErr (List Nat)) = .ok L := h
    injection h2 with h3
    rw [← h3]
    rfl
  | cons lv rest ih =>
    unfold matchRows at h
    rcases hcr : checkRow tol cols lv.1 lv.2 s.parameters with e | u
    · rw [hcr] at h
      exact absurd (show (Except.error e : Except MatchErr (List Nat)) = .ok L from h)
        (by simp)
    · rw [hcr] at h
      rcases hmr : matchRows s tol cols rest with e2 | tail
      · rw [hmr] at h
        exact absurd (show (Except.error e2 : Except MatchErr (List Nat)) = .ok L from h)
          (by simp)
      · rw [hmr] at h
        have h2 : (Except.ok (matchRow s cols lv.2 ++ tail) : Except MatchErr (List Nat))
            = .ok L := h
        injection h2 with h3
        rw [← h3, matchRow_eq, List.flatMap_cons, ih tail hmr]

lemma setMeasured_getElem (md : List Flags) (inds : List Nat) (k : Nat) :
    (setMeasured md inds)[k]?
      = (md[k]?).map (fun f =>
          if inds.contains k then { f with was_measured := true } else f) := by
  unfold setMeasured
  rw [List.getElem?_map, List.getElem?_enum]
  rcases md[k]? with _ | f <;> rfl

lemma flags_update_eq (f : Flags) (c : Bool) :
    (if c then { f with was_measured := true } else f)
      = Flags.mk f.was_recommended (f.was_measured || c) f.dont_recommend := by
  rcases f with ⟨wr, wm, dr⟩
  cases c
  · simp
  · simp

/-- C5 (amended): for every successful matching call, the recorded index
list takes, per input row in order, the first label (if any) among the
rows that match exactly on every non-numeric parameter and per numeric
parameter attain the minimum absolute deviation over ALL search-space
rows (not only over the remaining candidates, which is where the original
claim fails); zero surviving candidates contribute no index, several
contribute only the first; `mark_as_measured` then sets `was_measured` to
true exactly at the recorded labels, leaving other flags untouched. -/
theorem spec_C5_matching_semantics (s : SubspaceDiscrete) (df : MeasDF) (tol : Bool)
    (L : List Nat) (hok : s.matchIndices df tol = .ok L) :
    L = df.rows.flatMap (fun lv => (candidateLabels s df.cols lv.2).take 1)
      ∧ ∀ s2, s.mark_as_measured df tol = .ok s2 →
          ∀ k, s2.metadata[k]?
            = (s.metadata[k]?).map (fun f =>
                Flags.mk f.was_recommended (f.was_measured || L.contains k)
                  f.dont_recommend) := by
  have hmr : matchRows s tol df.cols df.rows = .ok L := by
    unfold SubspaceDiscrete.matchIndices at hok
    rcases hall : s.parameters.all (fun p => df.cols.contains p.name) with _ | _
    · rw [hall] at hok
      simp at hok
    · rw [hall] at hok
      exact hok
  constructor
  · exact matchRows_ok_eq s tol df.cols df.rows L hmr
  · intro s2 hs2 k
    unfold SubspaceDiscrete.mark_as_measured at hs2
    rw [hok] at hs2
    have h2 : (Except.ok { s with metadata := setMeasured s.metadata L }
        : Except MatchErr SubspaceDiscrete) = .ok s2 := hs2
    injection h2 with h3
    rw [← h3]
    show (setMeasured s.metadata L)[k]? = _
    rw [setMeasured_getElem]
    congr 1
    funext f
    exact flags_update_eq f (L.contains k)

unseal Rat.add Rat.sub in
/-- C5 amended-theorem witness at the counterexample subspace. -/
theorem spec_C5_matching_witness :
    ([] : List Nat)
      = c5meas.rows.flatMap (fun lv => (candidateLabels c5sub c5meas.cols lv.2).take 1) :=
  (spec_C5_matching_semantics c5sub c5meas false [] (by decide)).1

lemma enumFrom_setMap (inds : List Nat) (g : Flags → Bool)
    (hg : ∀ f, g { f with was_measured := true } = g f) :
    ∀ (md : List Flags) (n : Nat),
      ((List.enumFrom n md).map (fun kf => if inds.contains kf.1
          then { kf.2 with was_measured := true } else kf.2)).map g = md.map g := by
  intro md
  induction md with
  | nil => intro n; rfl
  | cons f rest ih =>
    intro n
    show ((((n, f) :: List.enumFrom (n + 1) rest)).map _).map g = _
    simp only [List.map_cons]
    rw [ih (n + 1)]
    congr 1
    by_cases hc : inds.contains (n, f).1 = true
    · rw [if_pos hc]
      exact hg f
    · rw [if_neg hc]

lemma setMeasured_map_g (md : List Flags) (inds : List Nat) (g : Flags → Bool)
    (hg : ∀ f, g { f with was_measured := true } = g f) :
    (setMeasured md inds).map g = md.map g :=
  enumFrom_setMap inds g hg md 0

/-- C10: `mark_as_measured` is atomic on validation failure: matching of
every input row completes before any metadata write, so a validation
error is returned with no state produced and no flag set; a successful
call preserves parameters, `exp_rep`, `comp_rep`, the encoding flag, the
metadata row count and the `was_recommended` and `dont_recommend`
columns, and never flips `was_measured` from true to false. -/
theorem spec_C10_mark_atomicity (s : SubspaceDiscrete) (df : MeasDF) (tol : Bool) :
    (∀ e, s.matchIndices df tol = .error e → s.mark_as_measured df tol = .error e)
      ∧ (∀ s2, s.mark_as_measured df tol = .ok s2 →
          s2.parameters = s.parameters ∧ s2.exp_rep = s.exp_rep
            ∧ s2.comp_rep = s.comp_rep ∧ s2.empty_encoding = s.empty_encoding
            ∧ s2.metadata.length = s.metadata.length
            ∧ s2.metadata.map (fun f => f.was_recommended)
                = s.metadata.map (fun f => f.was_recommended)
            ∧ s2.metadata.map (fun f => f.dont_recommend)
                = s.metadata.map (fun f => f.dont_recommend)
            ∧ ∀ (k : Nat) (f f2 : Flags), s.metadata[k]? = some f →
                s2.metadata[k]? = some f2 →
                f.was_measured = true → f2.was_measured = true) := by
  constructor
  · intro e he
    unfold SubspaceDiscrete.mark_as_measured
    rw [he]
    rfl
  · intro s2 hs2
    unfold SubspaceDiscrete.mark_as_measured at hs2
    rcases hmi : s.matchIndices df tol with e | inds
    · rw [hmi] at hs2
      exact absurd (show (Except.error e : Except MatchErr SubspaceDiscrete) = .ok s2
        from hs2) (by simp)
    · rw [hmi] at hs2
      have h2 : (Except.ok { s with metadata := setMeasured s.metadata inds }
          : Except MatchErr SubspaceDiscrete) = .ok s2 := hs2
      injection h2 with h3
      rw [← h3]
      refine ⟨rfl, rfl, rfl, rfl, ?_, ?_, ?_, ?_⟩
      · simp [setMeasured]
      · exact setMeasured_map_g s.metadata inds _ (fun f => rfl)
      · exact setMeasured_map_g s.metadata inds _ (fun f => rfl)
      · intro k f f2 hf hf2
        have hf2b : (setMeasured s.metadata inds)[k]? = some f2 := hf2
        rw [setMeasured_getElem, hf] at hf2b
        have h4 : (if inds.contains k then { f with was_measured := true } else f)
            = f2 := Option.some.inj hf2b
        intro hm
        rw [← h4]
        by_cases hc : inds.contains k = true
        · rw [if_pos hc]
        · rw [if_neg hc]
          exact hm

/-- The post-state of marking the unmatched C5 measurement. -/
def c5marked : SubspaceDiscrete :=
  { c5sub with metadata := setMeasured c5sub.metadata [] }

unseal Rat.add Rat.sub in
/-- C10 witness: an error input leaves no state, a successful input
preserves the experimental representation. -/
theorem spec_C10_witness :
    c4sub.mark_as_measured c4dfMissing false = .error .missingColumns
      ∧ c5marked.exp_rep = c5sub.exp_rep :=
  ⟨(spec_C10_mark_atomicity c4sub c4dfMissing false).1 .missingColumns rfl,
   ((spec_C10_mark_atomicity c5sub c5meas false).2 c5marked rfl).2.1⟩

/-- An extended bound value: finite rational or one of the two
infinities a float bound can carry in the source. -/
inductive XVal where
  | negInf : XVal
  | fin : ℚ → XVal
  | posInf : XVal
deriving DecidableEq, Repr

/-- Modelled from the spec: the continuous parameter collaborator
(`NumericContinuous`), a name and a `(lower, upper)` bound pair. -/
structure ContParameter where
  name : String
  lo : XVal
  hi : XVal

/-- The continuous subspace: only the parameter list (stateless). -/
structure SubspaceContinuous where
  parameters : List ContParameter

/-- `SubspaceContinuous.param_bounds_comp`: the declared bound columns,
one `(lower, upper)` pair per parameter (2 x 0 when empty). -/
def SubspaceContinuous.param_bounds_comp (s : SubspaceContinuous) : List (XVal × XVal) :=
  s.parameters.map (fun p => (p.lo, p.hi))

/-- One entry of `torch.clip(bounds, -1000, 1000)` with
`INF_BOUNDS_REPLACEMENT = 1000`: the clip applies to EVERY entry, finite
ones included. -/
def clipBound (x : XVal) : ℚ :=
  match x with
  | .negInf => -1000
  | .posInf => 1000
  | .fin q => if q < -1000 then -1000 else if 1000 < q then 1000 else q

/-- `SubspaceContinuous.bounds_forced_finite`: clip of the declared
bounds; the declared bounds themselves are a pure function of the
parameters and are not modified. -/
def SubspaceContinuous.bounds_forced_finite (s : SubspaceContinuous) : List (ℚ × ℚ) :=
  s.param_bounds_comp.map (fun b => (clipBound b.1, clipBound b.2))

/-- Cartesian product of per-dimension rational lists
(`pd.MultiIndex.from_product`), first dimension outermost. -/
def cartProdQ : List (List ℚ) → List (List ℚ)
  | [] => [[]]
  | vs :: rest => vs.flatMap (fun v => (cartProdQ rest).map (fun t => v :: t))

/-- The corner set the spec and the claim prescribe: the product of the
clamped bound pairs, every parameter contributing exactly its two
extremes (`pd.MultiIndex.from_product` over `bounds_forced_finite.T`).
The source would build it only after the guard modelled below. -/
def cornerSet (s : SubspaceContinuous) : List (List ℚ) :=
  cartProdQ (s.bounds_forced_finite.map (fun b => [b.1, b.2]))

/-- Elementwise `torch.isfinite` on one bound entry. -/
def isFiniteX : XVal → Bool
  | .fin _ => true
  | .negInf => false
  | .posInf => false

/-- `SubspaceContinuous.is_fully_bounded` AS WRITTEN in the source: it
returns `torch.isfinite(self.param_bounds_comp)`, the elementwise
finiteness TENSOR of the (2, k) bound matrix (modelled flattened, 2 k
entries), although its own docstring promises a single bool ("True if
search space has no infinite bounds"). -/
def SubspaceContinuous.is_fully_bounded (s : SubspaceContinuous) : List Bool :=
  s.param_bounds_comp.flatMap (fun b => [isFiniteX b.1, isFiniteX b.2])

/-- `SubspaceContinuous.full_factorial` as the source executes it: the
warning guard `if not self.is_fully_bounded:` first coerces that tensor
to a Python bool, which torch permits only for exactly one element and
otherwise refuses with a RuntimeError; a k-parameter subspace has 2 k
entries, never one, so the guard raises before the corner set is ever
built (for k = 0 the zero-element coercion also raises, with a slightly
different torch message, modelled here by the same error value). -/
def SubspaceContinuous.full_factorial (s : SubspaceContinuous) :
    Except String (List (List ℚ)) :=
  if s.is_fully_bounded.length == 1 then .ok (cornerSet s)
  else .error "Boolean value of Tensor with more than one element is ambiguous"

/-- `SubspaceContinuous.samples_full_factorial`: evaluates
`self.full_factorial` (propagating its error), then the corner-count
check, then `DataFrame.sample(n)` with the random without-replacement
draw externalised into the index choice `picks`. -/
def SubspaceContinuous.samples_full_factorial (s : SubspaceContinuous) (n : Nat)
    (picks : List Nat) : Except String (List (List ℚ)) :=
  (s.full_factorial).bind (fun ff =>
    if ff.length < n then .error "not enough points in the full factorial"
    else .ok (picks.map (fun i => ff.getD i [])))

lemma map_const_replicate {α : Type} (l : List α) (c : Nat) :
    l.map (fun _ => c) = List.replicate l.length c := by
  induction l with
  | nil => rfl
  | cons x rest ih => simp [ih, List.replicate_succ]

lemma cartProdQ_length (ls : List (List ℚ)) :
    (cartProdQ ls).length = (ls.map List.length).prod := by
  induction ls with
  | nil => rfl
  | cons vs rest ih =>
    show (vs.flatMap (fun v => (cartProdQ rest).map (fun t => v :: t))).length = _
    rw [List.length_flatMap]
    simp only [Function.comp_def, List.length_map]
    rw [map_const_replicate, List.sum_replicate, smul_eq_mul, ih]
    simp [Nat.mul_comm]

lemma cornerSet_length (s : SubspaceContinuous) :
    (cornerSet s).length = 2 ^ s.parameters.length := by
  unfold cornerSet
  rw [cartProdQ_length]
  have h2 : (s.bounds_forced_finite.map (fun b => [b.1, b.2])).map List.length
      = List.replicate s.parameters.length 2 := by
    rw [List.map_map, show (List.length ∘ fun (b : ℚ × ℚ) => [b.1, b.2])
      = fun (_ : ℚ × ℚ) => 2 from rfl, map_const_replicate]
    congr 1
    simp [SubspaceContinuous.bounds_forced_finite, SubspaceContinuous.param_bounds_comp]
  rw [h2, List.prod_replicate]

lemma is_fully_bounded_length (s : SubspaceContinuous) :
    s.is_fully_bounded.length = 2 * s.parameters.length := by
  unfold SubspaceContinuous.is_fully_bounded
  rw [List.length_flatMap]
  rw [show (List.length ∘ fun (b : XVal × XVal) => [isFiniteX b.1, isFiniteX b.2])
    = fun (_ : XVal × XVal) => 2 from rfl]
  rw [map_const_replicate, List.sum_replicate, smul_eq_mul]
  unfold SubspaceContinuous.param_bounds_comp
  rw [List.length_map]
  omega

/-- Two-parameter bounded continuous subspace exhibiting the C7 failure
on an input the claim says must succeed. -/
def c7sub : SubspaceContinuous :=
  ⟨[⟨"x", XVal.fin 0, XVal.fin 1⟩, ⟨"y", XVal.fin 0, XVal.fin 5⟩]⟩

/-- C7 (code bug): `full_factorial` begins with
`if not self.is_fully_bounded:`, and `is_fully_bounded` returns the
elementwise finiteness tensor instead of the bool its docstring
promises, so the coercion raises torch's RuntimeError for every
subspace (2 k tensor entries, never exactly one) and both
`full_factorial` and `samples_full_factorial` always fail before the
corner-count check; on the concrete two-parameter space the claim's
precondition 1 = n ≤ 2 ^ k holds, the intended corner set indeed has
2 ^ k rows, yet the call errors instead of returning a sample. -/
theorem spec_C7_full_factorial_bug :
    (∀ s : SubspaceContinuous, s.full_factorial
        = .error "Boolean value of Tensor with more than one element is ambiguous")
      ∧ (∀ (s : SubspaceContinuous) (n : Nat) (picks : List Nat),
          s.samples_full_factorial n picks
            = .error "Boolean value of Tensor with more than one element is ambiguous")
      ∧ c7sub.samples_full_factorial 1 [0]
          = .error "Boolean value of Tensor with more than one element is ambiguous"
      ∧ (1 : Nat) ≤ 2 ^ c7sub.parameters.length
      ∧ (cornerSet c7sub).length = 2 ^ c7sub.parameters.length := by
  have hff : ∀ s : SubspaceContinuous, s.full_factorial
      = .error "Boolean value of Tensor with more than one element is ambiguous" := by
    intro s
    unfold SubspaceContinuous.full_factorial
    have hlen := is_fully_bounded_length s
    have hne : (s.is_fully_bounded.length == 1) = false := by
      rw [beq_eq_false_iff_ne, hlen]
      omega
    rw [hne]
    rfl
  have hsamp : ∀ (s : SubspaceContinuous) (n : Nat) (picks : List Nat),
      s.samples_full_factorial n picks
        = .error "Boolean value of Tensor with more than one element is ambiguous" := by
    intro s n picks
    unfold SubspaceContinuous.samples_full_factorial
    rw [hff s]
    rfl
  exact ⟨hff, hsamp, hsamp c7sub 1 [0], by decide, cornerSet_length c7sub⟩

/-- One-parameter continuous subspace with a large finite upper bound. -/
def c8sub : SubspaceContinuous := ⟨[⟨"c", XVal.fin 0, XVal.fin 2000⟩]⟩

/-- C8 counterexample: the claim as stated fails on finite bounds of
magnitude above 1000. The declared upper bound 2000 is finite, yet
`torch.clip` returns 1000 for it, so finite declared bounds are NOT
always returned unchanged. -/
theorem spec_C8_counterexample :
    c8sub.param_bounds_comp = [(XVal.fin 0, XVal.fin 2000)]
      ∧ c8sub.bounds_forced_finite = [(0, 1000)]
      ∧ (1000 : ℚ) ≠ 2000 := by
  refine ⟨rfl, by decide, by decide⟩

/-- C8 (amended): `bounds_forced_finite` is the entrywise clip of the
declared bounds into `[-1000, 1000]`: infinite bounds become the fixed
finite magnitude 1000 with matching sign, finite bounds inside the range
are returned unchanged, and finite bounds beyond the range are clamped to
it; the declared `param_bounds_comp` is never mutated — it remains the
pure per-parameter bound list recomputed from the parameter definitions
on every access (first conjunct). -/
theorem spec_C8_bounds_forced_finite (s : SubspaceContinuous) :
    s.param_bounds_comp = s.parameters.map (fun p => (p.lo, p.hi))
      ∧ s.bounds_forced_finite
        = s.param_bounds_comp.map (fun b => (clipBound b.1, clipBound b.2))
      ∧ clipBound XVal.negInf = -1000
      ∧ clipBound XVal.posInf = 1000
      ∧ (∀ q : ℚ, -1000 ≤ q → q ≤ 1000 → clipBound (XVal.fin q) = q)
      ∧ (∀ q : ℚ, 1000 < q → clipBound (XVal.fin q) = 1000)
      ∧ (∀ q : ℚ, q < -1000 → clipBound (XVal.fin q) = -1000) := by
  refine ⟨rfl, rfl, rfl, rfl, ?_, ?_, ?_⟩
  · intro q h1 h2
    show (if q < -1000 then (-1000 : ℚ) else if 1000 < q then 1000 else q) = q
    rw [if_neg (not_lt.2 h1), if_neg (not_lt.2 h2)]
  · intro q h
    show (if q < -1000 then (-1000 : ℚ) else if 1000 < q then 1000 else q) = 1000
    rw [if_neg (not_lt.2 (by linarith)), if_pos h]
  · intro q h
    show (if q < -1000 then (-1000 : ℚ) else if 1000 < q then 1000 else q) = -1000
    rw [if_pos h]

/-- C8 amended-theorem witness on concrete bounds. -/
theorem spec_C8_witness :
    clipBound (XVal.fin 7) = 7
      ∧ clipBound (XVal.fin 5000) = 1000
      ∧ clipBound (XVal.fin (-5000)) = -1000 :=
  ⟨(spec_C8_bounds_forced_finite c8sub).2.2.2.2.1 7 (by decide) (by decide),
   (spec_C8_bounds_forced_finite c8sub).2.2.2.2.2.1 5000 (by decide),
   (spec_C8_bounds_forced_finite c8sub).2.2.2.2.2.2 (-5000) (by decide)⟩

/-- The parameter union handed to `SearchSpace.create`. -/
inductive Parameter where
  | disc : DiscreteParameter → Parameter
  | cont : ContParameter → Parameter

/-- The `is_discrete` dispatch used to split the caller's list. -/
def Parameter.is_discrete : Parameter → Bool
  | .disc _ => true
  | .cont _ => false

/-- The discrete half of the caller's parameter list, order preserved
(`[p for p in parameters if p.is_discrete]`). -/
def discreteOf (params : List Parameter) : List DiscreteParameter :=
  params.filterMap (fun p => match p with
    | .disc d => some d
    | .cont _ => none)

/-- The continuous half of the caller's parameter list, order preserved. -/
def continuousOf (params : List Parameter) : List ContParameter :=
  params.filterMap (fun p => match p with
    | .disc _ => none
    | .cont c => some c)

/-- The combined search space. -/
structure SearchSpace where
  discrete : SubspaceDiscrete
  continuous : SubspaceContinuous
  parameters : List Parameter
  empty_encoding : Bool

/-- `SearchSpace.create`: splits the caller's list by discreteness and
builds both subspaces, keeping the caller's full list. -/
def SearchSpace.create (params : List Parameter) (cs : List Constraint)
    (emptyEnc : Bool) : SearchSpace :=
  { discrete := SubspaceDiscrete.create (discreteOf params) cs emptyEnc
    continuous := ⟨continuousOf params⟩
    parameters := params
    empty_encoding := emptyEnc }

/-- Largest element of a rational series (`Series.max`). -/
def qmax (a b : ℚ) : ℚ := if a ≤ b then b else a

/-- Largest element of a rational series, kernel evaluable. -/
def listMax (xs : List ℚ) : ℚ := xs.foldl qmax (xs.headD 0)

/-- Column `j` of the per-value encoding table `p.comp_df`: the `j`-th
encoded component of every domain value. -/
def comp_df_col (p : DiscreteParameter) (j : Nat) : List ℚ :=
  p.values.map (fun v => (p.encode v).getD j 0)

/-- The surviving per-column bound pairs collected by the comprehension
inside `SubspaceDiscrete.param_bounds_comp`: per parameter and per
`comp_df` column still present in `comp_rep`, the (min, max) over the
parameter's domain. -/
def SubspaceDiscrete.boundsCols (s : SubspaceDiscrete) : List (ℚ × ℚ) :=
  s.parameters.flatMap (fun p =>
    p.compCols.enum.filterMap (fun jc =>
      if s.comp_rep.cols.contains jc.2
      then some (listMin (comp_df_col p jc.1), listMax (comp_df_col p jc.1))
      else none))

/-- `SubspaceDiscrete.param_bounds_comp`: `torch.empty(2, 0)` when there
are no parameters; otherwise `np.hstack` of the surviving per-column
bound pairs, which raises a ValueError when that collection is empty —
nonempty parameters every one of whose `comp_df` columns was pruned,
e.g. any empty-encoding subspace with parameters (zero `comp_rep`
columns) or a subspace whose computational columns are all constant. -/
def SubspaceDiscrete.param_bounds_comp (s : SubspaceDiscrete) :
    Except String (List (ℚ × ℚ)) :=
  if s.parameters.isEmpty then .ok []
  else if s.boundsCols.isEmpty
  then .error "need at least one array to concatenate"
  else .ok s.boundsCols

/-- `SearchSpace.param_bounds_comp`: horizontal concatenation, discrete
bound columns (finite) first, continuous bound columns second; an error
raised while computing the discrete bounds propagates. -/
def SearchSpace.param_bounds_comp (sp : SearchSpace) :
    Except String (List (XVal × XVal)) :=
  (sp.discrete.param_bounds_comp).map (fun db =>
    db.map (fun b => (XVal.fin b.1, XVal.fin b.2))
      ++ sp.continuous.param_bounds_comp)

lemma discreteOf_append (a b : List Parameter) :
    discreteOf (a ++ b) = discreteOf a ++ discreteOf b :=
  List.filterMap_append ..

lemma continuousOf_append (a b : List Parameter) :
    continuousOf (a ++ b) = continuousOf a ++ continuousOf b :=
  List.filterMap_append ..

lemma discreteOf_filter_disc (params : List Parameter) :
    discreteOf (params.filter (fun p => p.is_discrete)) = discreteOf params := by
  induction params with
  | nil => rfl
  | cons p rest ih =>
    cases p with
    | disc d => simp [discreteOf, List.filter_cons, Parameter.is_discrete] at ih ⊢; exact ih
    | cont c => simp [discreteOf, List.filter_cons, Parameter.is_discrete] at ih ⊢; exact ih

lemma discreteOf_filter_cont (params : List Parameter) :
    discreteOf (params.filter (fun p => !p.is_discrete)) = [] := by
  induction params with
  | nil => rfl
  | cons p rest ih =>
    cases p with
    | disc d => simpa [List.filter_cons, Parameter.is_discrete] using ih
    | cont c => simpa [discreteOf, List.filter_cons, Parameter.is_discrete] using ih

lemma continuousOf_filter_cont (params : List Parameter) :
    continuousOf (params.filter (fun p => !p.is_discrete)) = continuousOf params := by
  induction params with
  | nil => rfl
  | cons p rest ih =>
    cases p with
    | disc d => simp [continuousOf, List.filter_cons, Parameter.is_discrete] at ih ⊢; exact ih
    | cont c => simp [continuousOf, List.filter_cons, Parameter.is_discrete] at ih ⊢; exact ih

lemma continuousOf_filter_disc (params : List Parameter) :
    continuousOf (params.filter (fun p => p.is_discrete)) = [] := by
  induction params with
  | nil => rfl
  | cons p rest ih =>
    cases p with
    | disc d => simpa [continuousOf, List.filter_cons, Parameter.is_discrete] using ih
    | cont c => simpa [List.filter_cons, Parameter.is_discrete] using ih

/-- The spec's four interleaved example parameters. -/
def c6params : List Parameter :=
  [Parameter.disc (pNum "A_disc" [1, 2, 3]),
   Parameter.cont ⟨"A_cont", XVal.fin 4, XVal.fin 6⟩,
   Parameter.disc (pNum "B_disc" [7, 8, 9]),
   Parameter.cont ⟨"B_cont", XVal.fin 10, XVal.fin 12⟩]

/-- C6 counterexample: an empty-encoding space with one discrete
parameter retains no computational column, so the claim's concatenation
(discrete bounds restricted to surviving `comp_rep` columns, here none,
followed by the continuous bounds, here none) would be the empty 2 x 0
bound matrix; the source instead executes `np.hstack([])`, which raises
a ValueError, so `param_bounds_comp` is not the concatenation on every
search space. -/
theorem spec_C6_counterexample :
    (SearchSpace.create [Parameter.disc (pNum "p" [1, 2])] [] true).param_bounds_comp
        = .error "need at least one array to concatenate"
      ∧ (SearchSpace.create [Parameter.disc (pNum "p" [1, 2])] [] true).param_bounds_comp
          ≠ .ok [] := by
  refine ⟨by decide, by decide⟩

/-- C6 (amended): the combined bound computation maps over the discrete
subspace's bound computation, so whenever the discrete bounds exist (no
discrete parameters, or at least one surviving computational column) the
result is the discrete bound columns followed by the continuous ones —
discrete-derived always before continuous-derived, independent of the
caller's parameter order (reordering the caller's list to discrete-first
changes nothing), with the spec's four-parameter interleaved example
evaluating to lower row [1, 7, 4, 10] and upper row [3, 9, 6, 12]; when
discrete parameters exist but every computational column was pruned, the
computation instead raises the `np.hstack` ValueError. -/
theorem spec_C6_bounds_order (params : List Parameter) (cs : List Constraint) (e : Bool) :
    ((SearchSpace.create params cs e).param_bounds_comp
        = ((SubspaceDiscrete.create (discreteOf params) cs e).param_bounds_comp).map
            (fun db => db.map (fun b => (XVal.fin b.1, XVal.fin b.2))
              ++ SubspaceContinuous.param_bounds_comp ⟨continuousOf params⟩))
      ∧ (∀ db, (SubspaceDiscrete.create (discreteOf params) cs e).param_bounds_comp
            = .ok db →
          (SearchSpace.create params cs e).param_bounds_comp
            = .ok (db.map (fun b => (XVal.fin b.1, XVal.fin b.2))
                ++ SubspaceContinuous.param_bounds_comp ⟨continuousOf params⟩))
      ∧ ((SubspaceDiscrete.create (discreteOf params) cs e).parameters.isEmpty = false →
          (SubspaceDiscrete.create (discreteOf params) cs e).boundsCols = [] →
          (SearchSpace.create params cs e).param_bounds_comp
            = .error "need at least one array to concatenate")
      ∧ (SearchSpace.create params cs e).param_bounds_comp
          = (SearchSpace.create (params.filter (fun p => p.is_discrete)
              ++ params.filter (fun p => !p.is_discrete)) cs e).param_bounds_comp
      ∧ (SearchSpace.create c6params [] false).param_bounds_comp
          = .ok [(XVal.fin 1, XVal.fin 3), (XVal.fin 7, XVal.fin 9),
              (XVal.fin 4, XVal.fin 6), (XVal.fin 10, XVal.fin 12)] := by
  refine ⟨rfl, ?_, ?_, ?_, by decide⟩
  · intro db h
    show ((SubspaceDiscrete.create (discreteOf params) cs e).param_bounds_comp).map
        (fun db2 => db2.map (fun b => (XVal.fin b.1, XVal.fin b.2))
          ++ SubspaceContinuous.param_bounds_comp ⟨continuousOf params⟩)
      = _
    rw [h]
    rfl
  · intro hne hempty
    have hdisc : (SubspaceDiscrete.create (discreteOf params) cs e).param_bounds_comp
        = .error "need at least one array to concatenate" := by
      unfold SubspaceDiscrete.param_bounds_comp
      rw [if_neg (fun hc => Bool.false_ne_true (hne ▸ hc))]
      rw [if_pos (by rw [hempty]; rfl)]
    show ((SubspaceDiscrete.create (discreteOf params) cs e).param_bounds_comp).map
        (fun db2 => db2.map (fun b => (XVal.fin b.1, XVal.fin b.2))
          ++ SubspaceContinuous.param_bounds_comp ⟨continuousOf params⟩)
      = _
    rw [hdisc]
    rfl
  · have hd : discreteOf (params.filter (fun p => p.is_discrete)
        ++ params.filter (fun p => !p.is_discrete)) = discreteOf params := by
      rw [discreteOf_append, discreteOf_filter_disc, discreteOf_filter_cont,
        List.append_nil]
    have hc : continuousOf (params.filter (fun p => p.is_discrete)
        ++ params.filter (fun p => !p.is_discrete)) = continuousOf params := by
      rw [continuousOf_append, continuousOf_filter_disc, continuousOf_filter_cont,
        List.nil_append]
    show ((SubspaceDiscrete.create (discreteOf params) cs e).param_bounds_comp).map
        (fun db => db.map (fun b => (XVal.fin b.1, XVal.fin b.2))
          ++ SubspaceContinuous.param_bounds_comp ⟨continuousOf params⟩)
      = ((SubspaceDiscrete.create (discreteOf (params.filter (fun p => p.is_discrete)
            ++ params.filter (fun p => !p.is_discrete))) cs e).param_bounds_comp).map
        (fun db => db.map (fun b => (XVal.fin b.1, XVal.fin b.2))
          ++ SubspaceContinuous.param_bounds_comp
              ⟨continuousOf (params.filter (fun p => p.is_discrete)
                ++ params.filter (fun p => !p.is_discrete))⟩)
    rw [hd, hc]

/-- C6 amended-theorem witness: the success-case concatenation on the
four-parameter example and the pruned-columns error case. -/
theorem spec_C6_witness :
    (SearchSpace.create c6params [] false).param_bounds_comp
        = .ok ([((1 : ℚ), (3 : ℚ)), (7, 9)].map
              (fun b => (XVal.fin b.1, XVal.fin b.2))
            ++ SubspaceContinuous.param_bounds_comp ⟨continuousOf c6params⟩)
      ∧ (SearchSpace.create [Parameter.disc (pNum "p" [1, 2])] [] true).param_bounds_comp
          = .error "need at least one array to concatenate" :=
  ⟨(spec_C6_bounds_order c6params [] false).2.1 [(1, 3), (7, 9)] (by decide),
   (spec_C6_bounds_order [Parameter.disc (pNum "p" [1, 2])] [] true).2.2.1 (by decide)
     (by decide)⟩

/-- The cattrs-unstructured form of a `SubspaceDiscrete`: every attrs
field appears in the dictionary, the derived `comp_rep` and `metadata`
included, which is exactly why the registered `structure_hook` must pop
those two keys before structuring (`dict_.pop` would raise if they were
absent from the serialized form). -/
structure SerializedSubspaceDiscrete where
  parameters : List DiscreteParameter
  exp_rep : List (List Val)
  comp_rep : CompDF
  metadata : List Flags
  empty_encoding : Bool

/-- The cattrs-unstructured form of a `SearchSpace`. -/
structure SerializedSearchSpace where
  discrete : SerializedSubspaceDiscrete
  continuous : List ContParameter
  parameters : List Parameter
  empty_encoding : Bool

/-- `SearchSpace.to_dict` (`cattrs.unstructure`): records every field. -/
def SearchSpace.to_dict (sp : SearchSpace) : SerializedSearchSpace :=
  { discrete :=
      { parameters := sp.discrete.parameters
        exp_rep := sp.discrete.exp_rep
        comp_rep := sp.discrete.comp_rep
        metadata := sp.discrete.metadata
        empty_encoding := sp.discrete.empty_encoding }
    continuous := sp.continuous.parameters
    parameters := sp.parameters
    empty_encoding := sp.empty_encoding }

/-- `SearchSpace.from_dict` (`cattrs.structure` with the registered
`structure_hook`): pops `comp_rep` and `metadata` from the dictionary
and rebuilds the discrete subspace through the attrs constructor, which
recomputes both derived fields from `exp_rep` and `parameters`. -/
def SearchSpace.from_dict (d : SerializedSearchSpace) : SearchSpace :=
  { discrete := mkSubspaceDiscrete d.discrete.parameters d.discrete.exp_rep
      d.discrete.empty_encoding
    continuous := ⟨d.continuous⟩
    parameters := d.parameters
    empty_encoding := d.empty_encoding }

/-- C9 (amended): for a search space whose discrete subspace was built by
the constructor (with arbitrary later metadata mutation),
`from_dict (to_dict sp)` preserves the structural fields (parameters,
`exp_rep`, `empty_encoding`, the continuous parameters) and recomputes
the derived fields: `comp_rep` identical to the constructor's (the same
frozen column set) and `metadata` freshly initialised; consequently the
round trip reproduces the space exactly when the original metadata is
fresh (the serialized metadata and `comp_rep` entries are discarded by
the structuring hook, so recorded flags are lost). -/
theorem spec_C9_roundtrip (dp : List DiscreteParameter) (exp : List (List Val))
    (e : Bool) (md : List Flags) (cp : List ContParameter) (ap : List Parameter)
    (eTop : Bool) :
    (SearchSpace.from_dict (SearchSpace.to_dict
        ⟨{ mkSubspaceDiscrete dp exp e with metadata := md }, ⟨cp⟩, ap, eTop⟩)).discrete.parameters
        = dp
      ∧ (SearchSpace.from_dict (SearchSpace.to_dict
          ⟨{ mkSubspaceDiscrete dp exp e with metadata := md }, ⟨cp⟩, ap,
            eTop⟩)).discrete.exp_rep = exp
      ∧ (SearchSpace.from_dict (SearchSpace.to_dict
          ⟨{ mkSubspaceDiscrete dp exp e with metadata := md }, ⟨cp⟩, ap,
            eTop⟩)).discrete.empty_encoding = e
      ∧ (SearchSpace.from_dict (SearchSpace.to_dict
          ⟨{ mkSubspaceDiscrete dp exp e with metadata := md }, ⟨cp⟩, ap,
            eTop⟩)).continuous.parameters = cp
      ∧ (SearchSpace.from_dict (SearchSpace.to_dict
          ⟨{ mkSubspaceDiscrete dp exp e with metadata := md }, ⟨cp⟩, ap,
            eTop⟩)).parameters = ap
      ∧ (SearchSpace.from_dict (SearchSpace.to_dict
          ⟨{ mkSubspaceDiscrete dp exp e with metadata := md }, ⟨cp⟩, ap,
            eTop⟩)).empty_encoding = eTop
      ∧ (SearchSpace.from_dict (SearchSpace.to_dict
          ⟨{ mkSubspaceDiscrete dp exp e with metadata := md }, ⟨cp⟩, ap,
            eTop⟩)).discrete.comp_rep = (mkSubspaceDiscrete dp exp e).comp_rep
      ∧ (SearchSpace.from_dict (SearchSpace.to_dict
          ⟨{ mkSubspaceDiscrete dp exp e with metadata := md }, ⟨cp⟩, ap,
            eTop⟩)).discrete.metadata = exp.map (fun _ => Flags.fresh)
      ∧ (md = exp.map (fun _ => Flags.fresh) →
          SearchSpace.from_dict (SearchSpace.to_dict
            ⟨{ mkSubspaceDiscrete dp exp e with metadata := md }, ⟨cp⟩, ap, eTop⟩)
            = ⟨{ mkSubspaceDiscrete dp exp e with metadata := md }, ⟨cp⟩, ap, eTop⟩) := by
  refine ⟨rfl, rfl, rfl, rfl, rfl, rfl, rfl, rfl, ?_⟩
  intro hmd
  subst hmd
  rfl

/-- Discrete subspace for the C9 counterexample. -/
def c9sub : SubspaceDiscrete := SubspaceDiscrete.create [pNum "p" [1, 2]] [] false

/-- Measurement matching the first row exactly. -/
def c9meas : MeasDF := ⟨["p"], [(0, [Val.num 1])]⟩

/-- The post-measurement state: row 0 marked measured. -/
def c9subM : SubspaceDiscrete :=
  { c9sub with metadata := setMeasured c9sub.metadata (matchRow c9sub ["p"] [Val.num 1]) }

/-- Search space with a recorded measurement flag. -/
def c9space : SearchSpace :=
  ⟨c9subM, ⟨[]⟩, [Parameter.disc (pNum "p" [1, 2])], false⟩

unseal Rat.add Rat.sub in
/-- C9 counterexample: `c9space` is reached by a successful
`mark_as_measured` call, its metadata records `was_measured` on row 0,
and the dictionary round trip does NOT reconstruct an equal search
space, because the structuring hook discards the serialized metadata and
reinitialises it to all-false. -/
theorem spec_C9_counterexample :
    c9sub.mark_as_measured c9meas true = .ok c9subM
      ∧ c9subM.metadata.map (fun f => f.was_measured) = [true, false]
      ∧ SearchSpace.from_dict (SearchSpace.to_dict c9space) ≠ c9space := by
  refine ⟨rfl, by decide, ?_⟩
  intro h
  have h2 := congrArg (fun sp => sp.discrete.metadata.map (fun f => f.was_measured)) h
  exact absurd h2 (by decide)

/-- C9 amended-theorem witness: round trip of a fresh-metadata space
reproduces it exactly. -/
theorem spec_C9_witness :
    SearchSpace.from_dict (SearchSpace.to_dict
        ⟨{ mkSubspaceDiscrete [pNum "q" [1, 2]] [[Val.num 1], [Val.num 2]] false with
            metadata := [Flags.fresh, Flags.fresh] }, ⟨[]⟩, [], false⟩)
      = ⟨{ mkSubspaceDiscrete [pNum "q" [1, 2]] [[Val.num 1], [Val.num 2]] false with
            metadata := [Flags.fresh, Flags.fresh] }, ⟨[]⟩, [], false⟩ :=
  (spec_C9_roundtrip [pNum "q" [1, 2]] [[Val.num 1], [Val.num 2]] false
      [Flags.fresh, Flags.fresh] [] [] false).2.2.2.2.2.2.2.2 (by decide)
